import Mathlib

/-!
Verification of the onboarding progress-tracking and authorization logic.

The definitions below are a shallow embedding of the route handlers in
src/server.js (file-backed variant; src/api/index.js is line-for-line the
same logic for the routes modelled here):

* `freshProgress`       — the record created on first read/write
  (GET/POST /api/progress, the `if (!userProgress)` branch);
* `upsertSection`       — the findIndex/mutate-or-push update of the
  `sections` array (POST /api/progress, lines 181-191);
* `acknowledgeSection`  — one POST /api/progress on a single record:
  upsert, then recompute `completedSections`, `currentSection`,
  `lastUpdated` (lines 180-196);
* `getProgressStore` / `postProgressStore` — the same handlers at the
  level of the whole progress store (the JSON array on disk);
* `login`, `createUser`, `requireAuthenticated`, `requireAdmin` — the
  login route, the admin user-creation route and the two middleware
  guards `isAuthenticated` / `isAdmin`.

Timestamps (`new Date().toISOString()`) are modelled as an explicit
`now : Nat` argument; `bcrypt.hashSync` and `bcrypt.compareSync` are
parameters (`hash`, `check`) since their internals never matter to the
properties proved here.
-/

namespace Onboarding

/-- Roles as in users.json: the seed data has `admin` and `staff`;
`POST /api/admin/users` always creates `staff`. -/
inductive Role where
  | admin
  | staff
deriving DecidableEq, Repr

/-- A stored user record (users.json entry): id, email, bcrypt hash,
name, role. -/
structure User where
  id : Nat
  email : String
  password : String
  name : String
  role : Role
deriving DecidableEq, Repr

/-- The session identity stored by a successful login
(`req.session.user = { id, email, name, role }`) — note: no password
hash. -/
structure Identity where
  id : Nat
  email : String
  name : String
  role : Role
deriving DecidableEq, Repr

/-- One entry of a ProgressRecord's `sections` array:
`{ id, acknowledged, completedAt }`. The id comes straight from the
request body, so it is an arbitrary integer. -/
structure SectionRecord where
  id : Int
  acknowledged : Bool
  completedAt : Option Nat
deriving DecidableEq, Repr

/-- A per-user progress record as stored in progress.json. -/
structure ProgressRecord where
  userId : Nat
  userName : String
  sections : List SectionRecord
  currentSection : Nat
  completedSections : Nat
  lastUpdated : Nat
deriving DecidableEq, Repr

/-- The record built by the `if (!userProgress)` branches of
GET/POST /api/progress: empty sections, both counters 0,
`lastUpdated = now`. -/
def freshProgress (uid : Nat) (name : String) (now : Nat) : ProgressRecord :=
  { userId := uid
    userName := name
    sections := []
    currentSection := 0
    completedSections := 0
    lastUpdated := now }

/-- The section update of POST /api/progress (lines 181-191):
`findIndex(s => s.id === sectionId)`; if found, overwrite `acknowledged`
and set `completedAt = now` on that entry; otherwise push a new entry.
The recursion updates the first entry whose id matches, exactly as
findIndex does. -/
def upsertSection (l : List SectionRecord) (sid : Int) (ack : Bool) (now : Nat) :
    List SectionRecord :=
  match l with
  | [] => [{ id := sid, acknowledged := ack, completedAt := some now }]
  | s :: rest =>
    if s.id = sid then
      { s with acknowledged := ack, completedAt := some now } :: rest
    else
      s :: upsertSection rest sid ack now

/-- The count recomputed at line 194:
`sections.filter(s => s.acknowledged).length`. -/
def countAck (l : List SectionRecord) : Nat :=
  (l.filter (fun s => s.acknowledged)).length

/-- POST /api/progress on a single record (lines 180-196): upsert the
section, recompute `completedSections` from the full array,
`currentSection = Math.min(completedSections, 6)`, stamp
`lastUpdated`. -/
def acknowledgeSection (r : ProgressRecord) (sid : Int) (ack : Bool) (now : Nat) :
    ProgressRecord :=
  let newSections := upsertSection r.sections sid ack now
  let completed := countAck newSections
  { r with
    sections := newSections
    completedSections := completed
    currentSection := min completed 6
    lastUpdated := now }

/-- GET /api/progress at store level (lines 141-160): find the caller's
record; if absent, create a fresh one, push it and persist; return the
record together with the resulting store. -/
def getProgressStore (store : List ProgressRecord) (uid : Nat) (name : String)
    (now : Nat) : ProgressRecord × List ProgressRecord :=
  match store.find? (fun p => p.userId == uid) with
  | some r => (r, store)
  | none =>
    let fresh := freshProgress uid name now
    (fresh, store ++ [fresh])

/-- The `allProgress[progressIndex] = userProgress` write-back of
POST /api/progress (lines 199-202): replace the first record with the
given userId; leave the store unchanged when no index matches. -/
def setByUser (store : List ProgressRecord) (uid : Nat) (r : ProgressRecord) :
    List ProgressRecord :=
  match store with
  | [] => []
  | p :: rest =>
    if p.userId == uid then r :: rest
    else p :: setByUser rest uid r

/-- POST /api/progress at store level (lines 163-206): find-or-create
the caller's record, apply the section update and counter recomputation,
write the result back at the record's index, return the updated record
and store. -/
def postProgressStore (store : List ProgressRecord) (uid : Nat) (name : String)
    (sid : Int) (ack : Bool) (now : Nat) : ProgressRecord × List ProgressRecord :=
  match store.find? (fun p => p.userId == uid) with
  | some r =>
    let updated := acknowledgeSection r sid ack now
    (updated, setByUser store uid updated)
  | none =>
    let fresh := freshProgress uid name now
    let updated := acknowledgeSection fresh sid ack now
    (updated, setByUser (store ++ [fresh]) uid updated)

/-- Progress records reachable from a fresh record by any sequence of
acknowledgment calls. -/
inductive Reachable : ProgressRecord → Prop where
  | fresh (uid : Nat) (name : String) (now : Nat) :
      Reachable (freshProgress uid name now)
  | ack (r : ProgressRecord) (sid : Int) (a : Bool) (now : Nat) :
      Reachable r → Reachable (acknowledgeSection r sid a now)

/-- Progress stores reachable from the initial empty progress.json by
any interleaving of GET /api/progress and POST /api/progress calls. -/
inductive StoreReachable : List ProgressRecord → Prop where
  | init : StoreReachable []
  | get (s : List ProgressRecord) (uid : Nat) (name : String) (now : Nat) :
      StoreReachable s → StoreReachable (getProgressStore s uid name now).2
  | post (s : List ProgressRecord) (uid : Nat) (name : String) (sid : Int)
      (a : Bool) (now : Nat) :
      StoreReachable s → StoreReachable (postProgressStore s uid name sid a now).2

/-- The record-level invariant maintained by the handlers: counters
derived from the sections array, and no duplicate section ids. -/
def RecInv (r : ProgressRecord) : Prop :=
  r.completedSections = countAck r.sections ∧
  r.currentSection = min r.completedSections 6 ∧
  (r.sections.map (fun s => s.id)).Nodup

/-- Number of distinct section ids whose acknowledged flag is true. -/
def distinctAckCount (r : ProgressRecord) : Nat :=
  (((r.sections.filter (fun s => s.acknowledged)).map (fun s => s.id)).dedup).length

/-- Result of a middleware guard: call `next()` or short-circuit with a
status code and error body. -/
inductive GateResult where
  | ok
  | failure (status : Nat) (error : String)
deriving DecidableEq, Repr

/-- The `isAuthenticated` middleware (lines 82-87): pass iff the session
exists and carries a user; otherwise 401. The outer Option is
`req.session`, the inner is `req.session.user`. -/
def requireAuthenticated (sess : Option (Option Identity)) : GateResult :=
  match sess with
  | some (some _) => .ok
  | _ => .failure 401 "Not authenticated"

/-- The `isAdmin` middleware (lines 89-94): pass iff the session exists,
carries a user, and the user's role is admin; otherwise 403. -/
def requireAdmin (sess : Option (Option Identity)) : GateResult :=
  match sess with
  | some (some u) => if u.role = Role.admin then .ok else .failure 403 "Admin access required"
  | _ => .failure 403 "Admin access required"

/-- Response of POST /api/login. -/
inductive LoginResult where
  | success (user : Identity)
  | failure (status : Nat) (error : String)
deriving DecidableEq, Repr

/-- POST /api/login (lines 99-123): find the user by email; missing user
and failed hash comparison both return the same 401 body; on success the
session identity (no password hash) is returned. `check` stands for
`bcrypt.compareSync`. -/
def login (users : List User) (email pw : String)
    (check : String → String → Bool) : LoginResult :=
  match users.find? (fun u => u.email == email) with
  | none => .failure 401 "Invalid credentials"
  | some u =>
    if check pw u.password then
      .success { id := u.id, email := u.email, name := u.name, role := u.role }
    else
      .failure 401 "Invalid credentials"

/-- The public user fields returned by POST /api/admin/users. -/
structure PublicUser where
  id : Nat
  email : String
  name : String
deriving DecidableEq, Repr

/-- Response of POST /api/admin/users. -/
inductive CreateUserResult where
  | success (user : PublicUser)
  | failure (status : Nat) (error : String)
deriving DecidableEq, Repr

/-- POST /api/admin/users (lines 227-247): reject with 400 when the
email is already taken (store unchanged); otherwise append a new staff
user with id `Math.max(...ids, 0) + 1` and hashed password. `hash`
stands for `bcrypt.hashSync`. Returns the response and the resulting
user store. -/
def createUser (users : List User) (email pw name : String)
    (hash : String → String) : CreateUserResult × List User :=
  if (users.find? (fun u => u.email == email)).isSome then
    (.failure 400 "User already exists", users)
  else
    let newUser : User :=
      { id := (users.map (fun u => u.id)).foldr max 0 + 1
        email := email
        password := hash pw
        name := name
        role := Role.staff }
    (.success { id := newUser.id, email := newUser.email, name := newUser.name },
     users ++ [newUser])

/-- POST /api/progress behind the `isAuthenticated` gate: an
unauthenticated session gets the 401 short-circuit; an authenticated
one always reaches the handler, which never signals an error. -/
def postProgressEndpoint (sess : Option (Option Identity))
    (store : List ProgressRecord) (sid : Int) (ack : Bool) (now : Nat) :
    Except GateResult (ProgressRecord × List ProgressRecord) :=
  match sess with
  | some (some u) => .ok (postProgressStore store u.id u.name sid ack now)
  | _ => .error (.failure 401 "Not authenticated")

/-! ### Invariant lemmas -/

theorem upsertSection_map_id (l : List SectionRecord) (sid : Int) (a : Bool) (n : Nat) :
    (upsertSection l sid a n).map (fun s => s.id) =
      if sid ∈ l.map (fun s => s.id) then l.map (fun s => s.id)
      else l.map (fun s => s.id) ++ [sid] := by
  induction l with
  | nil => simp [upsertSection]
  | cons s rest ih =>
    by_cases h : s.id = sid
    · simp [upsertSection, h]
    · have h' : ¬ sid = s.id := fun hh => h hh.symm
      simp only [upsertSection, if_neg h, List.map_cons, ih, List.mem_cons]
      by_cases hm : sid ∈ rest.map (fun s => s.id) <;>
        simp [hm, h']

theorem upsertSection_nodup (l : List SectionRecord) (sid : Int) (a : Bool) (n : Nat)
    (h : (l.map (fun s => s.id)).Nodup) :
    ((upsertSection l sid a n).map (fun s => s.id)).Nodup := by
  rw [upsertSection_map_id]
  by_cases hm : sid ∈ l.map (fun s => s.id)
  · simpa [hm] using h
  · simp [hm, List.nodup_append, h]

theorem mem_upsertSection_map_id (l : List SectionRecord) (sid : Int) (a : Bool) (n : Nat) :
    sid ∈ (upsertSection l sid a n).map (fun s => s.id) := by
  rw [upsertSection_map_id]
  by_cases hm : sid ∈ l.map (fun s => s.id) <;> simp [hm]

theorem freshProgress_inv (uid : Nat) (name : String) (now : Nat) :
    RecInv (freshProgress uid name now) :=
  ⟨rfl, rfl, by simp [freshProgress]⟩

theorem acknowledgeSection_inv (r : ProgressRecord) (sid : Int) (a : Bool) (now : Nat)
    (h : RecInv r) : RecInv (acknowledgeSection r sid a now) :=
  ⟨rfl, rfl, upsertSection_nodup r.sections sid a now h.2.2⟩

theorem reachable_inv (r : ProgressRecord) (h : Reachable r) : RecInv r := by
  induction h with
  | fresh uid name now => exact freshProgress_inv uid name now
  | ack r sid a now _ ih => exact acknowledgeSection_inv r sid a now ih

theorem mem_setByUser (store : List ProgressRecord) (uid : Nat) (x r : ProgressRecord)
    (h : r ∈ setByUser store uid x) : r ∈ store ∨ r = x := by
  induction store with
  | nil => simp [setByUser] at h
  | cons p rest ih =>
    by_cases hp : p.userId == uid
    · simp only [setByUser, if_pos hp, List.mem_cons] at h
      rcases h with h | h
      · exact Or.inr h
      · exact Or.inl (List.mem_cons_of_mem p h)
    · simp only [setByUser, if_neg hp, List.mem_cons] at h
      rcases h with h | h
      · exact Or.inl (h ▸ List.mem_cons_self p rest)
      · rcases ih h with h' | h'
        · exact Or.inl (List.mem_cons_of_mem p h')
        · exact Or.inr h'

theorem storeReachable_inv (s : List ProgressRecord) (h : StoreReachable s) :
    ∀ r ∈ s, RecInv r := by
  induction h with
  | init => intro r hr; simp at hr
  | get s uid name now _ ih =>
    intro r hr
    unfold getProgressStore at hr
    cases hfind : s.find? (fun p => p.userId == uid) with
    | some q => rw [hfind] at hr; exact ih r hr
    | none =>
      rw [hfind] at hr
      simp only [List.mem_append, List.mem_singleton] at hr
      rcases hr with hr | hr
      · exact ih r hr
      · exact hr ▸ freshProgress_inv uid name now
  | post s uid name sid a now _ ih =>
    intro r hr
    unfold postProgressStore at hr
    cases hfind : s.find? (fun p => p.userId == uid) with
    | some q =>
      rw [hfind] at hr
      rcases mem_setByUser _ _ _ _ hr with hr' | hr'
      · exact ih r hr'
      · have hq : RecInv q := ih q (List.mem_of_find?_eq_some hfind)
        exact hr' ▸ acknowledgeSection_inv q sid a now hq
    | none =>
      rw [hfind] at hr
      rcases mem_setByUser _ _ _ _ hr with hr' | hr'
      · simp only [List.mem_append, List.mem_singleton] at hr'
        rcases hr' with hr' | hr'
        · exact ih r hr'
        · exact hr' ▸ freshProgress_inv uid name now
      · exact hr' ▸
          acknowledgeSection_inv _ sid a now (freshProgress_inv uid name now)

theorem countAck_le_upsert_true (l : List SectionRecord) (sid : Int) (n : Nat) :
    countAck l ≤ countAck (upsertSection l sid true n) := by
  induction l with
  | nil => simp [upsertSection, countAck]
  | cons s rest ih =>
    by_cases h : s.id = sid
    · simp only [upsertSection, if_pos h, countAck, List.filter_cons]
      cases hs : s.acknowledged <;> simp
    · simp only [upsertSection, if_neg h, countAck, List.filter_cons]
      cases hs : s.acknowledged <;> simp [countAck] at ih ⊢ <;> omega

theorem countAck_upsert_upsert (l : List SectionRecord) (sid : Int) (a : Bool)
    (n₁ n₂ : Nat) :
    countAck (upsertSection (upsertSection l sid a n₁) sid a n₂) =
      countAck (upsertSection l sid a n₁) := by
  induction l with
  | nil => cases a <;> simp [upsertSection, countAck]
  | cons s rest ih =>
    by_cases h : s.id = sid
    · cases a <;> simp [upsertSection, h, countAck, List.filter_cons]
    · simp only [upsertSection, if_neg h]
      simp only [upsertSection, if_neg h, countAck, List.filter_cons] at ih ⊢
      cases hs : s.acknowledged <;> simp [hs] at ih ⊢ <;> omega

theorem find?_append_of_none {p : ProgressRecord → Bool}
    (l₁ l₂ : List ProgressRecord) (h : l₁.find? p = none) :
    (l₁ ++ l₂).find? p = l₂.find? p := by
  induction l₁ with
  | nil => simp
  | cons x rest ih =>
    cases hx : p x with
    | true =>
      rw [List.find?_cons_of_pos _ hx] at h
      exact absurd h (by simp)
    | false =>
      have hx' : ¬ p x = true := by simp [hx]
      rw [List.find?_cons_of_neg _ hx'] at h
      rw [List.cons_append, List.find?_cons_of_neg _ hx']
      exact ih h

/-! ### Claim theorems -/

/-- Claim C1: for every sequence of acknowledgeSection calls starting from a
fresh ProgressRecord, after each call `completedSections` equals the number of
distinct section ids in the record whose acknowledged flag is true. -/
theorem claim_C1_completedSections_distinct (r : ProgressRecord) (h : Reachable r) :
    r.completedSections = distinctAckCount r := by
  obtain ⟨h1, _, h3⟩ := reachable_inv r h
  have hsub : ((r.sections.filter (fun s => s.acknowledged)).map (fun s => s.id)).Sublist
      (r.sections.map (fun s => s.id)) :=
    (List.filter_sublist r.sections).map (fun s => s.id)
  have hnd := List.Nodup.sublist hsub h3
  unfold distinctAckCount
  rw [List.dedup_eq_self.mpr hnd, List.length_map]
  exact h1

/-- Witness for C1 at a concrete two-call sequence. -/
theorem claim_C1_witness :
    Reachable (acknowledgeSection (acknowledgeSection (freshProgress 1 "u" 0) 0 true 1) 2 true 2) ∧
    (acknowledgeSection (acknowledgeSection (freshProgress 1 "u" 0) 0 true 1) 2 true 2).completedSections
      = distinctAckCount
          (acknowledgeSection (acknowledgeSection (freshProgress 1 "u" 0) 0 true 1) 2 true 2) :=
  ⟨Reachable.ack _ 2 true 2 (Reachable.ack _ 0 true 1 (Reachable.fresh 1 "u" 0)),
   claim_C1_completedSections_distinct _
     (Reachable.ack _ 2 true 2 (Reachable.ack _ 0 true 1 (Reachable.fresh 1 "u" 0)))⟩

/-- Claim C2: in every ProgressRecord state reachable by any sequence of
getProgress and acknowledgeSection calls, in any order, `currentSection`
equals `min completedSections 6`. -/
theorem claim_C2_currentSection_min (s : List ProgressRecord) (r : ProgressRecord)
    (h : StoreReachable s) (hr : r ∈ s) :
    r.currentSection = min r.completedSections 6 :=
  (storeReachable_inv s h r hr).2.1

/-- Witness for C2: a store reached by one GET and one POST. -/
theorem claim_C2_witness :
    StoreReachable (postProgressStore (getProgressStore [] 1 "u" 0).2 1 "u" 0 true 1).2 ∧
    (postProgressStore (getProgressStore [] 1 "u" 0).2 1 "u" 0 true 1).1
      ∈ (postProgressStore (getProgressStore [] 1 "u" 0).2 1 "u" 0 true 1).2 ∧
    (postProgressStore (getProgressStore [] 1 "u" 0).2 1 "u" 0 true 1).1.currentSection
      = min (postProgressStore (getProgressStore [] 1 "u" 0).2 1 "u" 0 true 1).1.completedSections 6 :=
  ⟨StoreReachable.post _ 1 "u" 0 true 1 (StoreReachable.get [] 1 "u" 0 StoreReachable.init),
   by decide,
   claim_C2_currentSection_min _ _
     (StoreReachable.post _ 1 "u" 0 true 1 (StoreReachable.get [] 1 "u" 0 StoreReachable.init))
     (by decide)⟩

/-- Claim C10: in every ProgressRecord reachable from the fresh record by
acknowledgeSection calls, the sections array has at most one entry per
section id (the upsert never duplicates an id). -/
theorem claim_C10_sections_nodup (r : ProgressRecord) (h : Reachable r) :
    (r.sections.map (fun s => s.id)).Nodup :=
  (reachable_inv r h).2.2

/-- Witness for C10: re-acknowledging id 0 does not duplicate it. -/
theorem claim_C10_witness :
    Reachable (acknowledgeSection (acknowledgeSection (freshProgress 2 "v" 0) 0 true 1) 0 true 2) ∧
    ((acknowledgeSection (acknowledgeSection (freshProgress 2 "v" 0) 0 true 1) 0 true 2).sections.map
      (fun s => s.id)).Nodup :=
  ⟨Reachable.ack _ 0 true 2 (Reachable.ack _ 0 true 1 (Reachable.fresh 2 "v" 0)),
   claim_C10_sections_nodup _
     (Reachable.ack _ 0 true 2 (Reachable.ack _ 0 true 1 (Reachable.fresh 2 "v" 0)))⟩

/-- Counterexample to claim C3 as stated: from the reachable record where
section 0 is acknowledged (currentSection = 1), the call
acknowledgeSection(0, false) overwrites the flag, the recomputed count drops
to 0, and currentSection falls from 1 to 0. -/
theorem claim_C3_counterexample :
    Reachable (acknowledgeSection (freshProgress 1 "u" 0) 0 true 1) ∧
    (acknowledgeSection (acknowledgeSection (freshProgress 1 "u" 0) 0 true 1) 0 false 2).currentSection
      < (acknowledgeSection (freshProgress 1 "u" 0) 0 true 1).currentSection :=
  ⟨Reachable.ack _ 0 true 1 (Reachable.fresh 1 "u" 0), by decide⟩

/-- Claim C3 (amended): for every reachable record, an acknowledgeSection
call with acknowledged = true never decreases currentSection; only a call
with acknowledged = false can move it backwards. -/
theorem claim_C3_ack_true_monotone (r : ProgressRecord) (sid : Int) (now : Nat)
    (h : Reachable r) :
    r.currentSection ≤ (acknowledgeSection r sid true now).currentSection := by
  obtain ⟨h1, h2, _⟩ := reachable_inv r h
  have hle := countAck_le_upsert_true r.sections sid now
  have he : (acknowledgeSection r sid true now).currentSection
      = min (countAck (upsertSection r.sections sid true now)) 6 := rfl
  rw [he, h2, h1]
  exact min_le_min hle (le_refl 6)

/-- Witness for the amended C3 at a concrete reachable record. -/
theorem claim_C3_witness :
    Reachable (acknowledgeSection (freshProgress 3 "w" 0) 0 true 1) ∧
    (acknowledgeSection (freshProgress 3 "w" 0) 0 true 1).currentSection
      ≤ (acknowledgeSection (acknowledgeSection (freshProgress 3 "w" 0) 0 true 1) 1 true 2).currentSection :=
  ⟨Reachable.ack _ 0 true 1 (Reachable.fresh 3 "w" 0),
   claim_C3_ack_true_monotone _ 1 2 (Reachable.ack _ 0 true 1 (Reachable.fresh 3 "w" 0))⟩

/-- Claim C4: getProgress for a user with no record creates and persists a
record with empty sections, currentSection = 0, completedSections = 0 and
lastUpdated = now before returning it, and a second call with no intervening
write returns the identical record and store, without recreating it. -/
theorem claim_C4_getProgress_idempotent (store : List ProgressRecord) (uid : Nat)
    (name : String) (n₁ n₂ : Nat)
    (h : store.find? (fun p => p.userId == uid) = none) :
    (getProgressStore store uid name n₁).1 = freshProgress uid name n₁ ∧
    (getProgressStore store uid name n₁).1.sections = [] ∧
    (getProgressStore store uid name n₁).1.currentSection = 0 ∧
    (getProgressStore store uid name n₁).1.completedSections = 0 ∧
    (getProgressStore store uid name n₁).1.lastUpdated = n₁ ∧
    (getProgressStore store uid name n₁).1 ∈ (getProgressStore store uid name n₁).2 ∧
    getProgressStore (getProgressStore store uid name n₁).2 uid name n₂ =
      ((getProgressStore store uid name n₁).1, (getProgressStore store uid name n₁).2) := by
  have e1 : getProgressStore store uid name n₁
      = (freshProgress uid name n₁, store ++ [freshProgress uid name n₁]) := by
    unfold getProgressStore
    rw [h]
  have hfind2 : (store ++ [freshProgress uid name n₁]).find? (fun p => p.userId == uid)
      = some (freshProgress uid name n₁) := by
    rw [find?_append_of_none _ _ h]
    rw [List.find?_cons_of_pos _ (by simp [freshProgress])]
  rw [e1]
  refine ⟨rfl, rfl, rfl, rfl, rfl, ?_, ?_⟩
  · simp
  · simp only [getProgressStore, hfind2]

/-- Witness for C4 on the empty store. -/
theorem claim_C4_witness :
    ([] : List ProgressRecord).find? (fun p => p.userId == 1) = none ∧
    ((getProgressStore [] 1 "u" 0).1 = freshProgress 1 "u" 0 ∧
     (getProgressStore [] 1 "u" 0).1.sections = [] ∧
     (getProgressStore [] 1 "u" 0).1.currentSection = 0 ∧
     (getProgressStore [] 1 "u" 0).1.completedSections = 0 ∧
     (getProgressStore [] 1 "u" 0).1.lastUpdated = 0 ∧
     (getProgressStore [] 1 "u" 0).1 ∈ (getProgressStore [] 1 "u" 0).2 ∧
     getProgressStore (getProgressStore [] 1 "u" 0).2 1 "u" 5 =
       ((getProgressStore [] 1 "u" 0).1, (getProgressStore [] 1 "u" 0).2)) :=
  ⟨rfl, claim_C4_getProgress_idempotent [] 1 "u" 0 5 rfl⟩

/-- Claim C5: for every ProgressRecord state and every sectionId, applying
acknowledgeSection with acknowledged = true twice in succession leaves
completedSections equal to its value after the first application. -/
theorem claim_C5_no_double_count (r : ProgressRecord) (sid : Int) (n₁ n₂ : Nat) :
    (acknowledgeSection (acknowledgeSection r sid true n₁) sid true n₂).completedSections
      = (acknowledgeSection r sid true n₁).completedSections := by
  show countAck (upsertSection (upsertSection r.sections sid true n₁) sid true n₂)
      = countAck (upsertSection r.sections sid true n₁)
  exact countAck_upsert_upsert r.sections sid true n₁ n₂

/-- Claim C6: createUser with an email already present fails with the
AlreadyExists response (HTTP 400) and leaves the user store unchanged. -/
theorem claim_C6_createUser_conflict (users : List User) (email pw name : String)
    (hash : String → String)
    (h : (users.find? (fun u => u.email == email)).isSome = true) :
    (createUser users email pw name hash).1
      = CreateUserResult.failure 400 "User already exists" ∧
    (createUser users email pw name hash).2 = users := by
  unfold createUser
  rw [if_pos h]
  exact ⟨rfl, rfl⟩

/-- A seeded admin user, used as concrete input by the witnesses. -/
def demoAdmin : User :=
  { id := 1, email := "admin@maytech.com", password := "hash-admin", name := "Admin User", role := Role.admin }

/-- Witness for C6: creating a user with the seeded admin's email. -/
theorem claim_C6_witness :
    (([demoAdmin].find? (fun u => u.email == "admin@maytech.com")).isSome = true) ∧
    ((createUser [demoAdmin] "admin@maytech.com" "pw" "B" (fun s => s)).1
        = CreateUserResult.failure 400 "User already exists" ∧
     (createUser [demoAdmin] "admin@maytech.com" "pw" "B" (fun s => s)).2 = [demoAdmin]) :=
  ⟨by decide,
   claim_C6_createUser_conflict [demoAdmin] "admin@maytech.com" "pw" "B" (fun s => s) (by decide)⟩

/-- Claim C7: login with an email matching no user and login with an
existing email but a failing password check produce the identical
InvalidCredentials 401 response, so the two failure causes are
indistinguishable to the caller. -/
theorem claim_C7_enumeration_resistance (users : List User) (e₁ p₁ e₂ p₂ : String)
    (u : User) (check : String → String → Bool)
    (h₁ : users.find? (fun v => v.email == e₁) = none)
    (h₂ : users.find? (fun v => v.email == e₂) = some u)
    (h₃ : check p₂ u.password = false) :
    login users e₁ p₁ check = LoginResult.failure 401 "Invalid credentials" ∧
    login users e₂ p₂ check = LoginResult.failure 401 "Invalid credentials" ∧
    login users e₁ p₁ check = login users e₂ p₂ check := by
  have l1 : login users e₁ p₁ check = LoginResult.failure 401 "Invalid credentials" := by
    unfold login
    rw [h₁]
  have l2 : login users e₂ p₂ check = LoginResult.failure 401 "Invalid credentials" := by
    unfold login
    rw [h₂]
    simp [h₃]
  exact ⟨l1, l2, by rw [l1, l2]⟩

/-- Witness for C7: unknown email vs. the seeded admin's email with a wrong
password, with plain string comparison standing for the hash check. -/
theorem claim_C7_witness :
    ([demoAdmin].find? (fun v => v.email == "nobody@maytech.com") = none) ∧
    ([demoAdmin].find? (fun v => v.email == "admin@maytech.com") = some demoAdmin) ∧
    ((fun p h => p == h : String → String → Bool) "wrong" demoAdmin.password = false) ∧
    (login [demoAdmin] "nobody@maytech.com" "x" (fun p h => p == h)
        = LoginResult.failure 401 "Invalid credentials" ∧
     login [demoAdmin] "admin@maytech.com" "wrong" (fun p h => p == h)
        = LoginResult.failure 401 "Invalid credentials" ∧
     login [demoAdmin] "nobody@maytech.com" "x" (fun p h => p == h)
        = login [demoAdmin] "admin@maytech.com" "wrong" (fun p h => p == h)) :=
  ⟨by decide, by decide, by decide,
   claim_C7_enumeration_resistance [demoAdmin] "nobody@maytech.com" "x"
     "admin@maytech.com" "wrong" demoAdmin (fun p h => p == h)
     (by decide) (by decide) (by decide)⟩

/-- Claim C8: requireAdmin succeeds iff requireAuthenticated succeeds and the
session identity's role is admin; in every other case it fails with the 403
Forbidden response. -/
theorem claim_C8_requireAdmin_iff (sess : Option (Option Identity)) :
    (requireAdmin sess = GateResult.ok ↔
      (requireAuthenticated sess = GateResult.ok ∧
        ∃ u, sess = some (some u) ∧ u.role = Role.admin)) ∧
    (requireAdmin sess = GateResult.ok ∨
      requireAdmin sess = GateResult.failure 403 "Admin access required") := by
  match sess with
  | none => simp [requireAdmin, requireAuthenticated]
  | some none => simp [requireAdmin, requireAuthenticated]
  | some (some u) =>
    by_cases h : u.role = Role.admin
    · simp [requireAdmin, requireAuthenticated, h]
    · simp [requireAdmin, requireAuthenticated, h]

/-- Claim C9: for every authenticated session user and every sectionId,
including ids outside [0, 6], the progress update signals no error: it
succeeds and the given id is stored in the sections array of the returned
record. -/
theorem claim_C9_no_sectionId_validation (u : Identity) (store : List ProgressRecord)
    (sid : Int) (a : Bool) (now : Nat) :
    postProgressEndpoint (some (some u)) store sid a now =
      Except.ok (postProgressStore store u.id u.name sid a now) ∧
    sid ∈ (postProgressStore store u.id u.name sid a now).1.sections.map (fun s => s.id) := by
  refine ⟨rfl, ?_⟩
  rcases hfind : store.find? (fun p => p.userId == u.id) with _ | r <;>
    simp only [postProgressStore, hfind] <;>
    exact mem_upsertSection_map_id _ sid a now

end Onboarding
